import Mathlib

/-
Verification of the conversation-memory and chat-orchestration core of the
Vector-Store tutoring backend.

The definitions below are a shallow embedding of the Python sources:
  * src/main/agentcore_setup/memory.py   (class ConversationMemory)
  * src/main/service/ChatService.py      (class ChatService)
  * src/main/dtos/PedagogyMode.py        (enum PedagogyMode)

Modelling conventions:
  * Python `dict` (insertion ordered, unique keys) becomes an association
    list `List (String × Session)`; insertion appends at the end, updates
    keep the position, `del` is `eraseKey`.  Key uniqueness, where a proof
    needs it, is carried as a `Nodup` hypothesis.
  * ISO-8601 timestamps produced by `datetime.now(timezone.utc).isoformat()`
    compare lexicographically exactly as instants compare, so they are
    modelled by a logical clock `Nat`; each operation takes the clock value
    `now` of the moment it runs.
  * Python `int` token counts are `Int`; optional values are `Option`.
  * Strings are Lean `String`; Python indexing/slicing counts code points,
    which matches `String.data : List Char`.
-/

namespace VectorStore

/-- Message record stored in a session: the dict built by
`ConversationMemory.add_message` ("tokens" and "context_ids" are present
only when the corresponding argument is not None, modelled by `Option`). -/
structure Message where
  role : String
  content : String
  timestamp : Nat
  tokens : Option Int
  contextIds : Option (List String)
  deriving DecidableEq, Repr

/-- Per-session record created by `ConversationMemory._create_session`. -/
structure Session where
  messages : List Message
  createdAt : Nat
  lastAccessed : Nat
  totalTokens : Int
  pedagogyMode : String
  deriving DecidableEq, Repr

/-- State of a `ConversationMemory` instance: the `sessions` dict (as an
insertion-ordered association list) and the `max_sessions` bound. -/
structure Memory where
  sessions : List (String × Session)
  maxSessions : Nat
  deriving DecidableEq, Repr

/-- Dict lookup `self.sessions[session_id]` / `session_id in self.sessions`. -/
def findSess : List (String × Session) → String → Option Session
  | [], _ => none
  | p :: ps, k => if p.1 = k then some p.2 else findSess ps k

/-- Dict update of the value stored at a key, keeping insertion order. -/
def updateSess (f : Session → Session) : List (String × Session) → String → List (String × Session)
  | [], _ => []
  | p :: ps, k => (if p.1 = k then (p.1, f p.2) else p) :: updateSess f ps k

/-- Dict deletion `del self.sessions[key]`. -/
def eraseKey : List (String × Session) → String → List (String × Session)
  | [], _ => []
  | p :: ps, k => if p.1 = k then eraseKey ps k else p :: eraseKey ps k

/-- Comparison step of Python `min` with key `last_accessed`: the candidate
replaces the current best only when strictly smaller (first minimum wins on
ties). -/
def minStep (best q : String × Session) : String × Session :=
  if q.2.lastAccessed < best.2.lastAccessed then q else best

/-- Python `min(self.sessions.items(), key=lambda x: x[1]["last_accessed"])`:
a left fold of `minStep` over the items in insertion order. -/
def minByLast : List (String × Session) → Option (String × Session)
  | [] => none
  | p :: ps => some (ps.foldl minStep p)

/-- Session record written by `_create_session`: empty history, zero tokens,
default mode "explanatory", both timestamps set to now. -/
def freshSession (now : Nat) : Session :=
  { messages := [], createdAt := now, lastAccessed := now
    totalTokens := 0, pedagogyMode := "explanatory" }

/-- Embedding of `ConversationMemory._create_session`: when the session count
has reached `max_sessions`, the entry with the smallest `last_accessed` is
deleted first, then the fresh session is inserted.  (With `max_sessions = 0`
and no stored session the Python code raises `ValueError` from `min([])`;
the model leaves the list unevicted there, and every theorem that touches
eviction assumes `1 ≤ maxSessions`, where model and code agree.) -/
def createSession (m : Memory) (sid : String) (now : Nat) : Memory :=
  let ss :=
    if m.maxSessions ≤ m.sessions.length then
      match minByLast m.sessions with
      | some p => eraseKey m.sessions p.1
      | none => m.sessions
    else m.sessions
  { m with sessions := ss ++ [(sid, freshSession now)] }

/-- Sum of `msg.get("tokens", 0)` over a message list (used by
`truncate_session_history` to recompute `total_tokens`). -/
def tokenSum : List Message → Int
  | [] => 0
  | msg :: ms => msg.tokens.getD 0 + tokenSum ms

/-- Python slice `messages[-k:]` for a nonnegative `k`: for `k = 0` the index
`-0` is `0` and the slice is the whole list; for `k > 0` it is the last
`min k len` elements. -/
def takeLast (l : List Message) (k : Nat) : List Message :=
  if k = 0 then l else l.drop (l.length - k)

/-- Embedding of `ConversationMemory.add_message`: creates the session when
absent, accumulates `total_tokens` when a token count is given, appends the
message and bumps `last_accessed`. -/
def addMessage (m : Memory) (sid role content : String) (tokens : Option Int)
    (contextIds : Option (List String)) (now : Nat) : Memory :=
  let m1 := if (findSess m.sessions sid).isSome then m else createSession m sid now
  { m1 with
    sessions := updateSess (fun s =>
      { s with
        totalTokens := s.totalTokens + tokens.getD 0
        messages := s.messages ++
          [{ role := role, content := content, timestamp := now
             tokens := tokens, contextIds := contextIds }]
        lastAccessed := now }) m1.sessions sid }

/-- Embedding of `ConversationMemory.get_history`: unknown session gives `[]`
with no state change; otherwise `last_accessed` is refreshed and, when
`max_messages` is a positive integer smaller than the stored count, only the
most recent `max_messages` entries are returned (oldest first). -/
def getHistory (m : Memory) (sid : String) (maxMessages : Option Int) (now : Nat) :
    List Message × Memory :=
  match findSess m.sessions sid with
  | none => ([], m)
  | some s =>
    let m' := { m with sessions := updateSess (fun t => { t with lastAccessed := now }) m.sessions sid }
    let msgs := s.messages
    match maxMessages with
    | some k =>
        if 0 < k ∧ k < (msgs.length : Int) then (msgs.drop (msgs.length - k.toNat), m')
        else (msgs, m')
    | none => (msgs, m')

/-- Embedding of `ConversationMemory.set_pedagogy_mode`: creates the session
when absent and stores the raw mode string without validation. -/
def setPedagogyMode (m : Memory) (sid mode : String) (now : Nat) : Memory :=
  let m1 := if (findSess m.sessions sid).isSome then m else createSession m sid now
  { m1 with sessions := updateSess (fun s => { s with pedagogyMode := mode }) m1.sessions sid }

/-- Embedding of `ConversationMemory.get_pedagogy_mode` (read-only, defaults
to "explanatory"). -/
def getPedagogyMode (m : Memory) (sid : String) : String :=
  match findSess m.sessions sid with
  | none => "explanatory"
  | some s => s.pedagogyMode

/-- Embedding of `ConversationMemory.clear_session`. -/
def clearSession (m : Memory) (sid : String) : Bool × Memory :=
  if (findSess m.sessions sid).isSome then
    (true, { m with sessions := eraseKey m.sessions sid })
  else (false, m)

/-- Embedding of `ConversationMemory.prune_old_sessions`: deletes every
session with `last_accessed` strictly before the cutoff instant and returns
how many were deleted. -/
def pruneOldSessions (m : Memory) (cutoff : Nat) : Nat × Memory :=
  let doomed := m.sessions.filter (fun p => decide (p.2.lastAccessed < cutoff))
  (doomed.length,
   { m with sessions := m.sessions.filter (fun p => decide (¬ p.2.lastAccessed < cutoff)) })

/-- Embedding of `ConversationMemory.truncate_session_history`: keeps only
`messages[-max_messages:]` when more than `max_messages` are stored, then
recomputes `total_tokens` as the sum over the retained messages; returns the
removed count.  (Argument modelled as `Nat`; the code takes an int and every
caller and claim passes a nonnegative value.) -/
def truncateSessionHistory (m : Memory) (sid : String) (maxMessages : Nat) : Nat × Memory :=
  match findSess m.sessions sid with
  | none => (0, m)
  | some s =>
    if s.messages.length ≤ maxMessages then (0, m)
    else
      (s.messages.length - maxMessages,
       { m with sessions := updateSess (fun t =>
           { t with
             messages := takeLast t.messages maxMessages
             totalTokens := tokenSum (takeLast t.messages maxMessages) }) m.sessions sid })

/-- Embedding of the legacy `ConversationMemory.set_state`: it only creates
the session when absent and ignores the supplied state dict. -/
def setState (m : Memory) (sid : String) (now : Nat) : Memory :=
  if (findSess m.sessions sid).isSome then m else createSession m sid now

/-- Public operations of `ConversationMemory`, each constructor carrying the
arguments of the call and the clock value of the moment it runs.  Read-only
operations (`session_exists`, `get_session_info`, `get_session_stats`,
`list_sessions`, `get_pedagogy_mode`, `get_state`) are included so that
statements about "every public operation" range over the full interface. -/
inductive MemOp where
  | addMsg (sid role content : String) (tokens : Option Int)
      (contextIds : Option (List String)) (now : Nat)
  | history (sid : String) (maxMessages : Option Int) (now : Nat)
  | formatted (sid : String) (maxMessages : Option Int) (now : Nat)
  | existsQ (sid : String)
  | info (sid : String)
  | stats (sid : String)
  | listAll
  | clear (sid : String)
  | setMode (sid mode : String) (now : Nat)
  | getMode (sid : String)
  | prune (cutoff : Nat)
  | truncOp (sid : String) (maxMessages : Nat)
  | stateGet (sid : String)
  | stateSet (sid : String) (now : Nat)
  | stateClear (sid : String)
  deriving DecidableEq, Repr

/-- State transition of one public `ConversationMemory` call
(`get_formatted_history` reads through `get_history`, so it shares its
`last_accessed` effect; `clear_state` delegates to `clear_session`; the pure
readers leave the state untouched). -/
def applyOp (m : Memory) : MemOp → Memory
  | .addMsg sid role content tokens ids now => addMessage m sid role content tokens ids now
  | .history sid k now => (getHistory m sid k now).2
  | .formatted sid k now => (getHistory m sid k now).2
  | .existsQ _ => m
  | .info _ => m
  | .stats _ => m
  | .listAll => m
  | .clear sid => (clearSession m sid).2
  | .setMode sid mode now => setPedagogyMode m sid mode now
  | .getMode _ => m
  | .prune cutoff => (pruneOldSessions m cutoff).2
  | .truncOp sid k => (truncateSessionHistory m sid k).2
  | .stateGet _ => m
  | .stateSet sid now => setState m sid now
  | .stateClear sid => (clearSession m sid).2

/-- Effect of a whole call sequence. -/
def applyOps (m : Memory) (ops : List MemOp) : Memory :=
  ops.foldl applyOp m

/-! Basic lemmas about the association-list dict model. -/

theorem length_updateSess (f : Session → Session) (l : List (String × Session)) (k : String) :
    (updateSess f l k).length = l.length := by
  induction l with
  | nil => rfl
  | cons p ps ih => simp only [updateSess, List.length_cons, ih]

theorem findSess_updateSess_self (f : Session → Session) (l : List (String × Session))
    (k : String) : findSess (updateSess f l k) k = (findSess l k).map f := by
  induction l with
  | nil => rfl
  | cons p ps ih =>
    by_cases h : p.1 = k
    · simp [updateSess, findSess, h]
    · simp [updateSess, findSess, h, ih]

theorem findSess_updateSess_ne (f : Session → Session) (l : List (String × Session))
    (k k' : String) (hne : k' ≠ k) :
    findSess (updateSess f l k) k' = findSess l k' := by
  induction l with
  | nil => rfl
  | cons p ps ih =>
    simp only [updateSess, findSess]
    by_cases h : p.1 = k
    · simp [h, Ne.symm hne, ih]
    · by_cases h2 : p.1 = k'
      · simp [h, h2, hne]
      · simp [h, h2, ih]

theorem mem_updateSess (f : Session → Session) (l : List (String × Session))
    (k : String) (q : String × Session) (hq : q ∈ updateSess f l k) :
    q ∈ l ∨ ∃ t, (k, t) ∈ l ∧ q = (k, f t) := by
  induction l with
  | nil => cases hq
  | cons p ps ih =>
    simp only [updateSess] at hq
    rcases List.mem_cons.1 hq with h1 | h1
    · by_cases h : p.1 = k
      · rw [if_pos h] at h1
        refine Or.inr ⟨p.2, ?_, ?_⟩
        · rw [show ((k : String), p.2) = p from by rw [← h]]
          exact List.mem_cons_self _ _
        · rw [h1, h]
      · rw [if_neg h] at h1
        exact Or.inl (by rw [h1]; exact List.mem_cons_self _ _)
    · rcases ih h1 with h2 | ⟨t, ht, hqt⟩
      · exact Or.inl (List.mem_cons_of_mem _ h2)
      · exact Or.inr ⟨t, List.mem_cons_of_mem _ ht, hqt⟩

theorem findSess_append (l1 l2 : List (String × Session)) (k : String) :
    findSess (l1 ++ l2) k =
      match findSess l1 k with
      | some s => some s
      | none => findSess l2 k := by
  induction l1 with
  | nil => rfl
  | cons p ps ih =>
    by_cases h : p.1 = k
    · simp [findSess, h]
    · simp [findSess, h, ih]

theorem eraseKey_length_le (l : List (String × Session)) (k : String) :
    (eraseKey l k).length ≤ l.length := by
  induction l with
  | nil => exact Nat.le_refl _
  | cons p ps ih =>
    by_cases h : p.1 = k
    · simp only [eraseKey, if_pos h]
      exact Nat.le_succ_of_le ih
    · simp only [eraseKey, if_neg h, List.length_cons]
      exact Nat.succ_le_succ ih

theorem eraseKey_length_lt (l : List (String × Session)) (p : String × Session)
    (hp : p ∈ l) : (eraseKey l p.1).length < l.length := by
  induction l with
  | nil => cases hp
  | cons q qs ih =>
    rcases List.mem_cons.1 hp with h | h
    · subst h
      simp only [eraseKey, if_pos rfl, List.length_cons]
      exact Nat.lt_succ_of_le (eraseKey_length_le _ _)
    · by_cases hq : q.1 = p.1
      · simp only [eraseKey, if_pos hq, List.length_cons]
        exact Nat.lt_succ_of_le (eraseKey_length_le _ _)
      · simp only [eraseKey, if_neg hq, List.length_cons]
        exact Nat.succ_lt_succ (ih h)

theorem mem_of_mem_eraseKey (l : List (String × Session)) (k : String)
    (q : String × Session) (hq : q ∈ eraseKey l k) : q ∈ l := by
  induction l with
  | nil => cases hq
  | cons p ps ih =>
    by_cases h : p.1 = k
    · simp only [eraseKey, if_pos h] at hq
      exact List.mem_cons_of_mem _ (ih hq)
    · simp only [eraseKey, if_neg h] at hq
      rcases List.mem_cons.1 hq with h1 | h1
      · exact h1 ▸ List.mem_cons_self _ _
      · exact List.mem_cons_of_mem _ (ih h1)

theorem mem_eraseKey_of_ne (l : List (String × Session)) (k : String)
    (q : String × Session) (hq : q ∈ l) (hne : q.1 ≠ k) : q ∈ eraseKey l k := by
  induction l with
  | nil => cases hq
  | cons p ps ih =>
    rcases List.mem_cons.1 hq with h | h
    · subst h
      simp only [eraseKey, if_neg hne]
      exact List.mem_cons_self _ _
    · by_cases hp : p.1 = k
      · simp only [eraseKey, if_pos hp]
        exact ih h
      · simp only [eraseKey, if_neg hp]
        exact List.mem_cons_of_mem _ (ih h)

theorem eraseKey_eq_self (l : List (String × Session)) (k : String)
    (h : k ∉ l.map Prod.fst) : eraseKey l k = l := by
  induction l with
  | nil => rfl
  | cons p ps ih =>
    simp only [List.map_cons, List.mem_cons, not_or] at h
    have hp : p.1 ≠ k := fun hh => h.1 hh.symm
    simp only [eraseKey, if_neg hp]
    rw [ih h.2]

theorem eraseKey_length_nodup (l : List (String × Session)) (k : String) (s : Session) :
    (l.map Prod.fst).Nodup → (k, s) ∈ l → (eraseKey l k).length + 1 = l.length := by
  induction l with
  | nil => intro _ hmem; cases hmem
  | cons p ps ih =>
    intro hnd hmem
    have hnd' : p.1 ∉ ps.map Prod.fst ∧ (ps.map Prod.fst).Nodup := by
      simpa using hnd
    rcases List.mem_cons.1 hmem with h | h
    · have hp1 : p.1 = k := by rw [← h]
      have hkeep : eraseKey ps k = ps := eraseKey_eq_self ps k (hp1 ▸ hnd'.1)
      simp [eraseKey, hp1, hkeep]
    · have hp1 : p.1 ≠ k := by
        intro hpk
        apply hnd'.1
        have hmap : (k, s).1 ∈ ps.map Prod.fst := List.mem_map_of_mem Prod.fst h
        simpa [hpk] using hmap
      have hrec := ih hnd'.2 h
      simp only [eraseKey, if_neg hp1, List.length_cons]
      omega

theorem foldl_minStep_spec (ps : List (String × Session)) (acc : String × Session) :
    (ps.foldl minStep acc = acc ∨ ps.foldl minStep acc ∈ ps) ∧
    (ps.foldl minStep acc).2.lastAccessed ≤ acc.2.lastAccessed ∧
    ∀ q ∈ ps, (ps.foldl minStep acc).2.lastAccessed ≤ q.2.lastAccessed := by
  induction ps generalizing acc with
  | nil => exact ⟨Or.inl rfl, Nat.le_refl _, by intro q hq; cases hq⟩
  | cons p ps ih =>
    simp only [List.foldl_cons]
    obtain ⟨hmem, hle, hall⟩ := ih (minStep acc p)
    have hcase : minStep acc p = p ∨ minStep acc p = acc := by
      unfold minStep; split
      · exact Or.inl rfl
      · exact Or.inr rfl
    have hle_acc : (minStep acc p).2.lastAccessed ≤ acc.2.lastAccessed := by
      unfold minStep; split <;> omega
    have hle_p : (minStep acc p).2.lastAccessed ≤ p.2.lastAccessed := by
      unfold minStep; split <;> omega
    refine ⟨?_, Nat.le_trans hle hle_acc, ?_⟩
    · rcases hmem with h | h
      · rcases hcase with h2 | h2
        · rw [h, h2]
          exact Or.inr (List.mem_cons_self _ _)
        · rw [h, h2]
          exact Or.inl rfl
      · exact Or.inr (List.mem_cons_of_mem _ h)
    · intro q hq
      rcases List.mem_cons.1 hq with h | h
      · rw [h]
        exact Nat.le_trans hle hle_p
      · exact hall q h

theorem minByLast_mem (l : List (String × Session)) (p : String × Session)
    (h : minByLast l = some p) : p ∈ l := by
  cases l with
  | nil => cases h
  | cons q qs =>
    simp only [minByLast, Option.some.injEq] at h
    rcases (foldl_minStep_spec qs q).1 with h1 | h1
    · exact (h ▸ h1) ▸ List.mem_cons_self _ _
    · exact List.mem_cons_of_mem _ (h ▸ h1)

theorem minByLast_le (l : List (String × Session)) (p : String × Session)
    (h : minByLast l = some p) :
    ∀ q ∈ l, p.2.lastAccessed ≤ q.2.lastAccessed := by
  cases l with
  | nil => cases h
  | cons r rs =>
    simp only [minByLast, Option.some.injEq] at h
    intro q hq
    obtain ⟨-, hle, hall⟩ := foldl_minStep_spec rs r
    rcases List.mem_cons.1 hq with h1 | h1
    · exact h ▸ h1 ▸ hle
    · exact h ▸ hall q h1

theorem tokenSum_append (l1 l2 : List Message) :
    tokenSum (l1 ++ l2) = tokenSum l1 + tokenSum l2 := by
  induction l1 with
  | nil => simp [tokenSum]
  | cons msg ms ih => simp [tokenSum, ih]; ring

/-! Concrete data used by witness theorems. -/

/-- Simple message with neither token count nor context ids. -/
def demoMsg (i : Nat) : Message :=
  { role := "user", content := toString i, timestamp := i, tokens := none, contextIds := none }

/-- Session holding the ten messages m1..m10 of the history-window example. -/
def histSession : Session :=
  { messages := [demoMsg 1, demoMsg 2, demoMsg 3, demoMsg 4, demoMsg 5,
                 demoMsg 6, demoMsg 7, demoMsg 8, demoMsg 9, demoMsg 10]
    createdAt := 0, lastAccessed := 5, totalTokens := 0, pedagogyMode := "explanatory" }

/-- Memory holding just `histSession` under the id "s". -/
def histMem : Memory := { sessions := [("s", histSession)], maxSessions := 1000 }

/-- C5: for a stored session with n messages and 0 < k < n, `get_history`
with `max_messages = k` returns exactly the k most recent messages in their
original oldest-first order (the final k-element suffix), an unknown session
id yields the empty list with the memory untouched, and a successful read
rewrites the session's `last_accessed` to the read instant. -/
theorem getHistory_window_spec (m : Memory) (sid sid2 : String) (s : Session) (k now : Nat)
    (hs : findSess m.sessions sid = some s)
    (hk : 0 < k) (hlt : k < s.messages.length)
    (h2 : findSess m.sessions sid2 = none) :
    (getHistory m sid (some (k : Int)) now).1 = s.messages.drop (s.messages.length - k)
    ∧ (getHistory m sid (some (k : Int)) now).1.length = k
    ∧ findSess ((getHistory m sid (some (k : Int)) now).2).sessions sid =
        some { s with lastAccessed := now }
    ∧ getHistory m sid2 (some (k : Int)) now = ([], m) := by
  have hcond : 0 < (k : Int) ∧ (k : Int) < (s.messages.length : Int) := by
    constructor <;> exact_mod_cast ‹_›
  refine ⟨?_, ?_, ?_, ?_⟩
  · simp only [getHistory, hs, if_pos hcond]
    simp
  · simp only [getHistory, hs, if_pos hcond]
    simp only [List.length_drop, Int.toNat_natCast]
    omega
  · simp only [getHistory, hs, if_pos hcond]
    rw [findSess_updateSess_self, hs]
    rfl
  · simp only [getHistory, h2]

/-- C5 witness: instantiation on a ten-message session, `k = 3`. -/
theorem getHistory_window_spec_witness :
    ((0 : Nat) < 3 ∧ 3 < histSession.messages.length) ∧
    ((getHistory histMem "s" (some 3) 99).1 =
        histSession.messages.drop (histSession.messages.length - 3)
     ∧ (getHistory histMem "s" (some 3) 99).1.length = 3
     ∧ findSess ((getHistory histMem "s" (some 3) 99).2).sessions "s" =
        some { histSession with lastAccessed := 99 }
     ∧ getHistory histMem "absent" (some 3) 99 = ([], histMem)) :=
  ⟨⟨by decide, by decide⟩,
   getHistory_window_spec histMem "s" "absent" histSession 3 99 (by decide)
     (by decide) (by decide) (by decide)⟩

/-- Session of the zero-limit truncation example: two messages worth 10 and
20 tokens, consistent `total_tokens`. -/
def zeroSession : Session :=
  { messages :=
      [{ role := "user", content := "a", timestamp := 1, tokens := some 10, contextIds := none },
       { role := "assistant", content := "b", timestamp := 2, tokens := some 20, contextIds := none }]
    createdAt := 0, lastAccessed := 2, totalTokens := 30, pedagogyMode := "explanatory" }

/-- Memory holding just `zeroSession` under the id "s". -/
def zeroMem : Memory := { sessions := [("s", zeroSession)], maxSessions := 1000 }

/-- C10: on a session with n > 0 stored messages,
`truncate_session_history(id, 0)` reports n messages removed while actually
keeping all n messages and the same `total_tokens` (the slice `[-0:]` is the
whole list), and `get_history(id, 0)` also treats 0 as no limit and returns
all n messages — so the reported removed count disagrees with the state
change. -/
theorem truncate_zero_quirk (m : Memory) (sid : String) (s : Session) (now : Nat)
    (hs : findSess m.sessions sid = some s)
    (hpos : 0 < s.messages.length)
    (hinv : s.totalTokens = tokenSum s.messages) :
    (truncateSessionHistory m sid 0).1 = s.messages.length
    ∧ findSess (truncateSessionHistory m sid 0).2.sessions sid = some s
    ∧ (getHistory m sid (some 0) now).1 = s.messages := by
  have hcond : ¬ s.messages.length ≤ 0 := by omega
  refine ⟨?_, ?_, ?_⟩
  · simp [truncateSessionHistory, hs, hcond]
  · simp only [truncateSessionHistory, hs, if_neg hcond]
    rw [findSess_updateSess_self, hs]
    simp only [Option.map_some']
    have htake : takeLast s.messages 0 = s.messages := by simp [takeLast]
    rw [htake, ← hinv]
  · have hguard : ¬ ((0 : Int) < 0 ∧ (0 : Int) < (s.messages.length : Int)) := by
      intro h
      exact absurd h.1 (by omega)
    simp [getHistory, hs, hguard]

/-- C10 witness: instantiation on the 10/20-token two-message session. -/
theorem truncate_zero_quirk_witness :
    ((0 : Nat) < zeroSession.messages.length
      ∧ zeroSession.totalTokens = tokenSum zeroSession.messages) ∧
    ((truncateSessionHistory zeroMem "s" 0).1 = zeroSession.messages.length
     ∧ findSess (truncateSessionHistory zeroMem "s" 0).2.sessions "s" = some zeroSession
     ∧ (getHistory zeroMem "s" (some 0) 7).1 = zeroSession.messages) :=
  ⟨⟨by decide, by decide⟩,
   truncate_zero_quirk zeroMem "s" zeroSession 7 (by decide) (by decide) (by decide)⟩

/-! Token-count consistency (claim C4). -/

/-- Consistency of the cached `total_tokens` of every stored session with
the sum of the per-message token counts over its current message list. -/
def TokInv (m : Memory) : Prop :=
  ∀ p ∈ m.sessions, p.2.totalTokens = tokenSum p.2.messages

theorem tokInv_updateSess (m : Memory) (sid : String) (f : Session → Session)
    (hm : TokInv m)
    (hf : ∀ t, t.totalTokens = tokenSum t.messages →
      (f t).totalTokens = tokenSum (f t).messages) :
    TokInv { m with sessions := updateSess f m.sessions sid } := by
  intro p hp
  rcases mem_updateSess f m.sessions sid p hp with h | ⟨t, ht, hpt⟩
  · exact hm p h
  · rw [hpt]
    exact hf t (hm (sid, t) ht)

theorem tokInv_createSession (m : Memory) (sid : String) (now : Nat)
    (hm : TokInv m) : TokInv (createSession m sid now) := by
  intro p hp
  simp only [createSession, List.mem_append] at hp
  rcases hp with hp | hp
  · split at hp
    · rcases hmin : minByLast m.sessions with _ | q
      · rw [hmin] at hp
        exact hm p hp
      · rw [hmin] at hp
        exact hm p (mem_of_mem_eraseKey _ _ _ hp)
    · exact hm p hp
  · have : p = (sid, freshSession now) := by simpa using hp
    rw [this]
    rfl

theorem tokInv_applyOp (m : Memory) (op : MemOp) (hm : TokInv m) :
    TokInv (applyOp m op) := by
  cases op with
  | addMsg sid role content tokens ids now =>
    have h1 : TokInv (if (findSess m.sessions sid).isSome then m
        else createSession m sid now) := by
      split
      · exact hm
      · exact tokInv_createSession m sid now hm
    refine tokInv_updateSess _ sid _ h1 ?_
    intro t ht
    simp only [tokenSum_append, ht, tokenSum]
    ring
  | history sid k now =>
    simp only [applyOp, getHistory]
    rcases hfind : findSess m.sessions sid with _ | s
    · exact hm
    · have hup : TokInv { m with
          sessions := updateSess (fun t => { t with lastAccessed := now }) m.sessions sid } :=
        tokInv_updateSess m sid _ hm (fun t ht => ht)
      rcases k with _ | k
      · exact hup
      · dsimp only
        split <;> exact hup
  | formatted sid k now =>
    simp only [applyOp, getHistory]
    rcases hfind : findSess m.sessions sid with _ | s
    · exact hm
    · have hup : TokInv { m with
          sessions := updateSess (fun t => { t with lastAccessed := now }) m.sessions sid } :=
        tokInv_updateSess m sid _ hm (fun t ht => ht)
      rcases k with _ | k
      · exact hup
      · dsimp only
        split <;> exact hup
  | existsQ sid => exact hm
  | info sid => exact hm
  | stats sid => exact hm
  | listAll => exact hm
  | clear sid =>
    simp only [applyOp, clearSession]
    split
    · intro p hp
      exact hm p (mem_of_mem_eraseKey _ _ _ hp)
    · exact hm
  | setMode sid mode now =>
    have h1 : TokInv (if (findSess m.sessions sid).isSome then m
        else createSession m sid now) := by
      split
      · exact hm
      · exact tokInv_createSession m sid now hm
    exact tokInv_updateSess _ sid _ h1 (fun t ht => ht)
  | getMode sid => exact hm
  | prune cutoff =>
    intro p hp
    simp only [applyOp, pruneOldSessions] at hp
    exact hm p (List.mem_of_mem_filter hp)
  | truncOp sid k =>
    simp only [applyOp, truncateSessionHistory]
    rcases hfind : findSess m.sessions sid with _ | s
    · exact hm
    · dsimp only
      split
      · exact hm
      · exact tokInv_updateSess m sid _ hm (fun t _ => rfl)
  | stateGet sid => exact hm
  | stateSet sid now =>
    simp only [applyOp, setState]
    split
    · exact hm
    · exact tokInv_createSession m sid now hm
  | stateClear sid =>
    simp only [applyOp, clearSession]
    split
    · intro p hp
      exact hm p (mem_of_mem_eraseKey _ _ _ hp)
    · exact hm

/-- C4: for every memory state whose sessions all satisfy the token-sum
consistency, any sequence of public operations (in particular any mix of
`add_message` and `truncate_session_history`) preserves it: each session's
`total_tokens` always equals the sum over its currently stored messages of
the per-message token count, a message without one contributing 0.
Concretely, adding messages worth 10 then 20 tokens yields
`total_tokens = 30`, and truncating to the most recent message leaves the
recomputed value 20. -/
theorem token_sum_consistency :
    (∀ (m : Memory) (ops : List MemOp), TokInv m → TokInv (applyOps m ops))
    ∧ ((findSess (applyOps { sessions := [], maxSessions := 1000 }
          [.addMsg "s" "user" "q" (some 10) none 1,
           .addMsg "s" "assistant" "a" (some 20) none 2]).sessions "s").map
            Session.totalTokens = some 30)
    ∧ ((findSess (applyOps { sessions := [], maxSessions := 1000 }
          [.addMsg "s" "user" "q" (some 10) none 1,
           .addMsg "s" "assistant" "a" (some 20) none 2,
           .truncOp "s" 1]).sessions "s").map
            Session.totalTokens = some 20) := by
  refine ⟨?_, by decide, by decide⟩
  intro m ops hm
  induction ops generalizing m with
  | nil => exact hm
  | cons op rest ih => exact ih (applyOp m op) (tokInv_applyOp m op hm)

/-- C4 witness: the general preservation applied to a concrete two-session
state and a concrete operation sequence. -/
theorem token_sum_consistency_witness :
    TokInv { sessions := [("s", zeroSession)], maxSessions := 1000 }
    ∧ TokInv (applyOps { sessions := [("s", zeroSession)], maxSessions := 1000 }
        [.truncOp "s" 1, .addMsg "s" "user" "c" (some 5) none 9, .history "s" (some 1) 10]) :=
  ⟨by unfold TokInv; decide, token_sum_consistency.1 _ _ (by unfold TokInv; decide)⟩

/-! Frame effect of operations on unknown session ids (claim C8). -/

/-- Session-id argument of a public operation (`list_sessions` and
`prune_old_sessions` take none). -/
def opSessionId : MemOp → Option String
  | .addMsg sid _ _ _ _ _ => some sid
  | .history sid _ _ => some sid
  | .formatted sid _ _ => some sid
  | .existsQ sid => some sid
  | .info sid => some sid
  | .stats sid => some sid
  | .listAll => none
  | .clear sid => some sid
  | .setMode sid _ _ => some sid
  | .getMode sid => some sid
  | .prune _ => none
  | .truncOp sid _ => some sid
  | .stateGet sid => some sid
  | .stateSet sid _ => some sid
  | .stateClear sid => some sid

/-- Operations that call `_create_session` when the id is unknown:
`add_message`, `set_pedagogy_mode` and the legacy `set_state`. -/
def opCreatesSession : MemOp → Bool
  | .addMsg _ _ _ _ _ _ => true
  | .setMode _ _ _ => true
  | .stateSet _ _ => true
  | _ => false

/-- C8 counterexample: the claim says `add_message` is the only public
operation that can create a session on an unknown id, but
`set_pedagogy_mode` called on an empty store creates the session. -/
theorem setMode_creates_session :
    (applyOp { sessions := [], maxSessions := 1000 } (.setMode "s1" "socratic" 0)).sessions ≠ []
    ∧ findSess (applyOp { sessions := [], maxSessions := 1000 }
        (.setMode "s1" "socratic" 0)).sessions "s1" ≠ none := by
  constructor <;> decide

/-- C8 amended: `add_message`, `set_pedagogy_mode` and the legacy
`set_state` are exactly the public operations that can create a session as a
side effect on an unknown session id; every other public operation taking a
session id leaves the stored sessions unchanged when that id is unknown. -/
theorem unknown_sid_frame (m : Memory) (op : MemOp) (sid : String)
    (hsid : opSessionId op = some sid)
    (hnc : opCreatesSession op = false)
    (hunk : findSess m.sessions sid = none) :
    (applyOp m op).sessions = m.sessions := by
  cases op with
  | addMsg sid' role content tokens ids now => cases hnc
  | history sid' k now =>
    have hs : sid' = sid := by simpa [opSessionId] using hsid
    subst hs
    simp [applyOp, getHistory, hunk]
  | formatted sid' k now =>
    have hs : sid' = sid := by simpa [opSessionId] using hsid
    subst hs
    simp [applyOp, getHistory, hunk]
  | existsQ sid' => rfl
  | info sid' => rfl
  | stats sid' => rfl
  | listAll => cases hsid
  | clear sid' =>
    have hs : sid' = sid := by simpa [opSessionId] using hsid
    subst hs
    simp [applyOp, clearSession, hunk]
  | setMode sid' mode now => cases hnc
  | getMode sid' => rfl
  | prune cutoff => cases hsid
  | truncOp sid' k =>
    have hs : sid' = sid := by simpa [opSessionId] using hsid
    subst hs
    simp [applyOp, truncateSessionHistory, hunk]
  | stateGet sid' => rfl
  | stateSet sid' now => cases hnc
  | stateClear sid' =>
    have hs : sid' = sid := by simpa [opSessionId] using hsid
    subst hs
    simp [applyOp, clearSession, hunk]

/-- C8 witness: a truncation call on an unknown id leaves a concrete
one-session store untouched. -/
theorem unknown_sid_frame_witness :
    (opSessionId (.truncOp "ghost" 3) = some "ghost"
      ∧ opCreatesSession (.truncOp "ghost" 3) = false
      ∧ findSess zeroMem.sessions "ghost" = none)
    ∧ (applyOp zeroMem (.truncOp "ghost" 3)).sessions = zeroMem.sessions :=
  ⟨⟨rfl, rfl, by decide⟩,
   unknown_sid_frame zeroMem (.truncOp "ghost" 3) "ghost" rfl rfl (by decide)⟩

/-! Session-capacity bound and LRU eviction (claim C2). -/

theorem createSession_maxSessions (m : Memory) (sid : String) (now : Nat) :
    (createSession m sid now).maxSessions = m.maxSessions := rfl

theorem applyOp_maxSessions (m : Memory) (op : MemOp) :
    (applyOp m op).maxSessions = m.maxSessions := by
  cases op <;>
    simp only [applyOp, addMessage, getHistory, setPedagogyMode, clearSession,
      pruneOldSessions, truncateSessionHistory, setState, createSession] <;>
    (repeat' split) <;> rfl

theorem createSession_length_le (m : Memory) (sid : String) (now : Nat)
    (hmax : 1 ≤ m.maxSessions) (hlen : m.sessions.length ≤ m.maxSessions) :
    (createSession m sid now).sessions.length ≤ m.maxSessions := by
  simp only [createSession, List.length_append, List.length_cons, List.length_nil]
  by_cases h : m.maxSessions ≤ m.sessions.length
  · rw [if_pos h]
    obtain ⟨p, hp⟩ : ∃ p, minByLast m.sessions = some p := by
      cases hl : m.sessions with
      | nil =>
        exfalso
        rw [hl] at h
        simp at h
        omega
      | cons a as => exact ⟨_, rfl⟩
    simp only [hp]
    have hlt := eraseKey_length_lt m.sessions p (minByLast_mem _ _ hp)
    omega
  · rw [if_neg h]
    omega

theorem applyOp_length_le (m : Memory) (op : MemOp)
    (hmax : 1 ≤ m.maxSessions) (hlen : m.sessions.length ≤ m.maxSessions) :
    (applyOp m op).sessions.length ≤ m.maxSessions := by
  cases op with
  | addMsg sid role content tokens ids now =>
    simp only [applyOp, addMessage, length_updateSess]
    split
    · exact hlen
    · exact createSession_length_le m sid now hmax hlen
  | history sid k now =>
    simp only [applyOp, getHistory]
    rcases findSess m.sessions sid with _ | s
    · exact hlen
    · rcases k with _ | k
      · simpa [length_updateSess] using hlen
      · dsimp only
        split <;> simpa [length_updateSess] using hlen
  | formatted sid k now =>
    simp only [applyOp, getHistory]
    rcases findSess m.sessions sid with _ | s
    · exact hlen
    · rcases k with _ | k
      · simpa [length_updateSess] using hlen
      · dsimp only
        split <;> simpa [length_updateSess] using hlen
  | existsQ sid => exact hlen
  | info sid => exact hlen
  | stats sid => exact hlen
  | listAll => exact hlen
  | clear sid =>
    simp only [applyOp, clearSession]
    split
    · exact Nat.le_trans (eraseKey_length_le _ _) hlen
    · exact hlen
  | setMode sid mode now =>
    simp only [applyOp, setPedagogyMode, length_updateSess]
    split
    · exact hlen
    · exact createSession_length_le m sid now hmax hlen
  | getMode sid => exact hlen
  | prune cutoff =>
    simp only [applyOp, pruneOldSessions]
    exact Nat.le_trans (List.length_filter_le _ _) hlen
  | truncOp sid k =>
    simp only [applyOp, truncateSessionHistory]
    rcases findSess m.sessions sid with _ | s
    · exact hlen
    · dsimp only
      split
      · exact hlen
      · simpa [length_updateSess] using hlen
  | stateGet sid => exact hlen
  | stateSet sid now =>
    simp only [applyOp, setState]
    split
    · exact hlen
    · exact createSession_length_le m sid now hmax hlen
  | stateClear sid =>
    simp only [applyOp, clearSession]
    split
    · exact Nat.le_trans (eraseKey_length_le _ _) hlen
    · exact hlen

/-- C2: first, for every memory configured with `max_sessions = N ≥ 1` and
currently within its bound, the stored session count stays at most N after
any sequence of public operations; second, creating a new session while
exactly N sessions are stored (distinct ids, new id unknown) evicts exactly
one existing session, namely one attaining the smallest `last_accessed`
(Python `min`, first such entry on ties), keeps every other session, and
leaves exactly N sessions.  (`max_sessions = 0` is excluded: there the
Python code raises `ValueError` out of `min([])` instead of storing.) -/
theorem capacity_bound_and_lru_eviction :
    (∀ (m : Memory) (ops : List MemOp), 1 ≤ m.maxSessions →
      m.sessions.length ≤ m.maxSessions →
      (applyOps m ops).sessions.length ≤ m.maxSessions)
    ∧ (∀ (m : Memory) (sid : String) (now : Nat),
        1 ≤ m.maxSessions →
        m.sessions.length = m.maxSessions →
        (m.sessions.map Prod.fst).Nodup →
        findSess m.sessions sid = none →
        ∃ p, minByLast m.sessions = some p
          ∧ p ∈ m.sessions
          ∧ (∀ q ∈ m.sessions, p.2.lastAccessed ≤ q.2.lastAccessed)
          ∧ (createSession m sid now).sessions
              = eraseKey m.sessions p.1 ++ [(sid, freshSession now)]
          ∧ (createSession m sid now).sessions.length = m.maxSessions
          ∧ (∀ q ∈ m.sessions, q.1 ≠ p.1 → q ∈ (createSession m sid now).sessions)) := by
  constructor
  · intro m ops
    induction ops generalizing m with
    | nil => intro _ h; exact h
    | cons op rest ih =>
      intro hmax hlen
      have h1 := applyOp_length_le m op hmax hlen
      have h2 := applyOp_maxSessions m op
      simpa [applyOps, h2] using ih (applyOp m op) (h2 ▸ hmax) (h2 ▸ h1)
  · intro m sid now hmax hlen hnd hunk
    obtain ⟨p, hp⟩ : ∃ p, minByLast m.sessions = some p := by
      cases hl : m.sessions with
      | nil =>
        exfalso
        rw [hl] at hlen
        simp at hlen
        omega
      | cons a as => exact ⟨_, rfl⟩
    have hmem := minByLast_mem _ _ hp
    have hsessions : (createSession m sid now).sessions
        = eraseKey m.sessions p.1 ++ [(sid, freshSession now)] := by
      simp only [createSession, if_pos (Nat.le_of_eq hlen.symm), hp]
    refine ⟨p, hp, hmem, minByLast_le _ _ hp, hsessions, ?_, ?_⟩
    · have herase : (eraseKey m.sessions p.1).length + 1 = m.sessions.length := by
        have hpe : ((p.1, p.2) : String × Session) ∈ m.sessions := by
          simpa using hmem
        exact eraseKey_length_nodup m.sessions p.1 p.2 hnd hpe
      rw [hsessions]
      simp only [List.length_append, List.length_cons, List.length_nil]
      omega
    · intro q hq hne
      rw [hsessions]
      exact List.mem_append_left _ (mem_eraseKey_of_ne m.sessions p.1 q hq hne)

/-- Two-session store at capacity, "b" the least recently accessed. -/
def lruMem : Memory :=
  { sessions := [("a", freshSession 5), ("b", freshSession 3)], maxSessions := 2 }

/-- C2 witness: with `max_sessions = 2` and sessions "a" (last accessed 5)
and "b" (last accessed 3), creating "c" evicts "b" (oldest) and the size
bound holds along a concrete operation sequence. -/
theorem capacity_bound_and_lru_eviction_witness :
    ((applyOps lruMem
        [.addMsg "c" "user" "q" none none 9, .setMode "d" "socratic" 11]).sessions.length ≤ 2)
    ∧ (∃ p, minByLast lruMem.sessions = some p
        ∧ p ∈ lruMem.sessions
        ∧ (∀ q ∈ lruMem.sessions, p.2.lastAccessed ≤ q.2.lastAccessed)
        ∧ (createSession lruMem "c" 9).sessions
            = eraseKey lruMem.sessions p.1 ++ [("c", freshSession 9)]
        ∧ (createSession lruMem "c" 9).sessions.length = lruMem.maxSessions
        ∧ (∀ q ∈ lruMem.sessions, q.1 ≠ p.1 → q ∈ (createSession lruMem "c" 9).sessions)) :=
  ⟨capacity_bound_and_lru_eviction.1 lruMem
      [.addMsg "c" "user" "q" none none 9, .setMode "d" "socratic" 11]
      (by decide) (by decide),
   capacity_bound_and_lru_eviction.2 lruMem "c" 9
      (by decide) (by decide) (by decide) (by decide)⟩

/-! Embedding of `ChatService._strip_reasoning_tags` (claim C6).

The Python code runs three `re.sub` passes and a final `.strip()`:
  1. `re.sub(r"<reasoning>.*?</reasoning>", "", text, IGNORECASE | DOTALL)`
  2. `re.sub(r"</?reasoning>", "", cleaned, IGNORECASE)`
  3. `re.sub(r"\n\x7b3,\x7d", "\n\n", cleaned)`
  4. `.strip()`
Each pass is modelled as the left-to-right scan the regex engine performs:
at each position try to match, on success emit the replacement and resume
after the match, otherwise emit one character and advance.  The lazy
`.*?` with DOTALL picks the nearest later closing tag, across newlines.
The scans take the input length as explicit fuel so that every definition
is structurally recursive and executable. -/

/-- ASCII lowercasing, modelling `re.IGNORECASE` on the ASCII-only tag
pattern (the tags contain only ASCII letters and punctuation). -/
def toLowerAscii (c : Char) : Char :=
  match c with
  | 'A' => 'a' | 'B' => 'b' | 'C' => 'c' | 'D' => 'd' | 'E' => 'e' | 'F' => 'f' | 'G' => 'g'
  | 'H' => 'h' | 'I' => 'i' | 'J' => 'j' | 'K' => 'k' | 'L' => 'l' | 'M' => 'm' | 'N' => 'n'
  | 'O' => 'o' | 'P' => 'p' | 'Q' => 'q' | 'R' => 'r' | 'S' => 's' | 'T' => 't' | 'U' => 'u'
  | 'V' => 'v' | 'W' => 'w' | 'X' => 'x' | 'Y' => 'y' | 'Z' => 'z'
  | other => other

/-- Case-insensitive literal match of a (lowercase) pattern at the head of
the input; on success returns the input remainder after the pattern. -/
def matchCI : List Char → List Char → Option (List Char)
  | [], s => some s
  | _, [] => none
  | p :: ps, c :: cs => if toLowerAscii c = p then matchCI ps cs else none

/-- Characters of the opening tag literal of the reasoning-span pattern. -/
def openTag : List Char := ['<', 'r', 'e', 'a', 's', 'o', 'n', 'i', 'n', 'g', '>']

/-- Characters of the closing tag literal of the reasoning-span pattern. -/
def closeTag : List Char := ['<', '/', 'r', 'e', 'a', 's', 'o', 'n', 'i', 'n', 'g', '>']

/-- Lazy `.*?</reasoning>` with DOTALL: scan forward to the nearest closing
tag and return the remainder after it. -/
def findClose : List Char → Option (List Char)
  | [] => none
  | c :: cs =>
    match matchCI closeTag (c :: cs) with
    | some rest => some rest
    | none => findClose cs

/-- First substitution pass: remove every leftmost-nearest
`<reasoning>...</reasoning>` span; an opening tag with no later closing tag
does not match and is passed through. -/
def stripSpansGo : Nat → List Char → List Char
  | 0, s => s
  | _ + 1, [] => []
  | fuel + 1, c :: cs =>
    match matchCI openTag (c :: cs) with
    | some rest =>
      match findClose rest with
      | some rest2 => stripSpansGo fuel rest2
      | none => c :: stripSpansGo fuel cs
    | none => c :: stripSpansGo fuel cs

/-- First pass at full fuel. -/
def stripSpans (l : List Char) : List Char := stripSpansGo l.length l

/-- Second substitution pass: remove every leftover standalone
`</reasoning>` or `<reasoning>` tag. -/
def stripLoneGo : Nat → List Char → List Char
  | 0, s => s
  | _ + 1, [] => []
  | fuel + 1, c :: cs =>
    match matchCI closeTag (c :: cs) with
    | some rest => stripLoneGo fuel rest
    | none =>
      match matchCI openTag (c :: cs) with
      | some rest => stripLoneGo fuel rest
      | none => c :: stripLoneGo fuel cs

/-- Second pass at full fuel. -/
def stripLone (l : List Char) : List Char := stripLoneGo l.length l

/-- Third substitution pass: each maximal run of 3 or more newlines is
replaced by exactly two. -/
def collapseGo : Nat → List Char → List Char
  | 0, s => s
  | _ + 1, [] => []
  | fuel + 1, c :: cs =>
    if c = '\n' then
      if 2 ≤ (cs.takeWhile (fun d => d = '\n')).length then
        '\n' :: '\n' :: collapseGo fuel (cs.dropWhile (fun d => d = '\n'))
      else c :: collapseGo fuel cs
    else c :: collapseGo fuel cs

/-- Third pass at full fuel. -/
def collapseNl (l : List Char) : List Char := collapseGo l.length l

/-- Whitespace set of Python `str.strip()` restricted to ASCII. -/
def isPySpace (c : Char) : Bool :=
  c == ' ' || c == '\t' || c == '\n' || c == '\r' || c == '\x0b' || c == '\x0c'

/-- Python `str.strip()`: drop leading and trailing whitespace. -/
def pyStripList (l : List Char) : List Char :=
  ((l.dropWhile isPySpace).reverse.dropWhile isPySpace).reverse

/-- Embedding of `ChatService._strip_reasoning_tags`: spans removed, then
standalone tags removed, then newline runs collapsed, then stripped. -/
def stripReasoningTags (s : String) : String :=
  String.mk (pyStripList (collapseNl (stripLone (stripSpans s.data))))

/-- Absence of the tag-opening character, the guard under which a segment
can never start a tag match. -/
def ltFree (l : List Char) : Prop := ∀ ch ∈ l, ch ≠ '<'

instance (l : List Char) : Decidable (ltFree l) := by
  unfold ltFree
  infer_instance

/-- Presence of a (case-insensitive) reasoning tag anywhere in the text. -/
def hasTag : List Char → Bool
  | [] => false
  | c :: cs =>
    ((matchCI openTag (c :: cs)).isSome || (matchCI closeTag (c :: cs)).isSome) || hasTag cs

theorem toLowerAscii_ne_lt (c : Char) (h : c ≠ '<') : toLowerAscii c ≠ '<' := by
  unfold toLowerAscii
  split <;> first | decide | assumption

theorem matchCI_cons_ne (pc : Char) (ps : List Char) (c : Char) (cs : List Char)
    (h : toLowerAscii c ≠ pc) : matchCI (pc :: ps) (c :: cs) = none := by
  simp [matchCI, h]

theorem matchCI_openTag_none (c : Char) (cs : List Char) (h : c ≠ '<') :
    matchCI openTag (c :: cs) = none :=
  matchCI_cons_ne '<' _ c cs (toLowerAscii_ne_lt c h)

theorem matchCI_closeTag_none (c : Char) (cs : List Char) (h : c ≠ '<') :
    matchCI closeTag (c :: cs) = none :=
  matchCI_cons_ne '<' _ c cs (toLowerAscii_ne_lt c h)

theorem matchCI_self (p : List Char) (rest : List Char)
    (h : ∀ ch ∈ p, toLowerAscii ch = ch) : matchCI p (p ++ rest) = some rest := by
  induction p with
  | nil => simp [matchCI]
  | cons c ps ih =>
    have hc : toLowerAscii c = c := h c (List.mem_cons_self _ _)
    simp only [List.cons_append, matchCI, hc, if_pos rfl]
    exact ih (fun ch hch => h ch (List.mem_cons_of_mem _ hch))

theorem ltFree_hasTag (l : List Char) (h : ltFree l) : hasTag l = false := by
  induction l with
  | nil => rfl
  | cons c cs ih =>
    have hc : c ≠ '<' := h c (List.mem_cons_self _ _)
    simp only [hasTag, matchCI_openTag_none c cs hc, matchCI_closeTag_none c cs hc,
      Option.isSome_none, Bool.or_self, Bool.false_or]
    exact ih (fun ch hch => h ch (List.mem_cons_of_mem _ hch))

theorem hasTag_cons_false (c : Char) (cs : List Char) (h : hasTag (c :: cs) = false) :
    matchCI openTag (c :: cs) = none ∧ matchCI closeTag (c :: cs) = none
      ∧ hasTag cs = false := by
  simp only [hasTag, Bool.or_eq_false_iff] at h
  refine ⟨?_, ?_, h.2⟩
  · cases hm : matchCI openTag (c :: cs) with
    | none => rfl
    | some r => rw [hm] at h; simp at h
  · cases hm : matchCI closeTag (c :: cs) with
    | none => rfl
    | some r => rw [hm] at h; simp at h

theorem stripSpansGo_nil (fuel : Nat) : stripSpansGo fuel [] = [] := by
  cases fuel <;> rfl

theorem stripLoneGo_nil (fuel : Nat) : stripLoneGo fuel [] = [] := by
  cases fuel <;> rfl

theorem stripSpansGo_eq_self (l : List Char) (h : hasTag l = false) :
    ∀ fuel, stripSpansGo fuel l = l := by
  induction l with
  | nil => intro fuel; exact stripSpansGo_nil fuel
  | cons c cs ih =>
    intro fuel
    cases fuel with
    | zero => rfl
    | succ f =>
      obtain ⟨ho, _, ht⟩ := hasTag_cons_false c cs h
      simp only [stripSpansGo, ho]
      rw [ih ht f]

theorem stripLoneGo_eq_self (l : List Char) (h : hasTag l = false) :
    ∀ fuel, stripLoneGo fuel l = l := by
  induction l with
  | nil => intro fuel; exact stripLoneGo_nil fuel
  | cons c cs ih =>
    intro fuel
    cases fuel with
    | zero => rfl
    | succ f =>
      obtain ⟨ho, hcl, ht⟩ := hasTag_cons_false c cs h
      simp only [stripLoneGo, ho, hcl]
      rw [ih ht f]

theorem stripSpansGo_ltFree_append (a : List Char) (rest : List Char) :
    ∀ fuel, ltFree a → a.length + rest.length ≤ fuel →
    stripSpansGo fuel (a ++ rest) = a ++ stripSpansGo (fuel - a.length) rest := by
  induction a with
  | nil => intro fuel _ _; simp
  | cons c a' ih =>
    intro fuel ha hf
    have hc : c ≠ '<' := ha c (List.mem_cons_self _ _)
    cases fuel with
    | zero => simp at hf
    | succ f =>
      have hnone : matchCI openTag (c :: (a' ++ rest)) = none :=
        matchCI_openTag_none c _ hc
      have hlen : a'.length + rest.length ≤ f := by
        simp only [List.length_cons] at hf
        omega
      simp only [List.cons_append, stripSpansGo, hnone, List.append_eq]
      rw [ih f (fun ch hch => ha ch (List.mem_cons_of_mem _ hch)) hlen]
      simp only [List.length_cons, List.cons_append]
      rw [show f + 1 - (a'.length + 1) = f - a'.length from by omega]

theorem findClose_ltFree_append (b rest : List Char) (hb : ltFree b) :
    findClose (b ++ (closeTag ++ rest)) = some rest := by
  induction b with
  | nil =>
    rw [List.nil_append]
    rw [show closeTag ++ rest =
      '<' :: (['/', 'r', 'e', 'a', 's', 'o', 'n', 'i', 'n', 'g', '>'] ++ rest) from by
        simp [closeTag]]
    simp only [findClose]
    rw [show ('<' :: (['/', 'r', 'e', 'a', 's', 'o', 'n', 'i', 'n', 'g', '>'] ++ rest))
        = closeTag ++ rest from by simp [closeTag]]
    rw [matchCI_self closeTag rest (by decide)]
  | cons c b' ih =>
    have hc : c ≠ '<' := hb c (List.mem_cons_self _ _)
    have hnone : matchCI closeTag (c :: (b' ++ (closeTag ++ rest))) = none :=
      matchCI_closeTag_none c _ hc
    simp only [List.cons_append, findClose, List.append_eq, hnone]
    exact ih (fun ch hch => hb ch (List.mem_cons_of_mem _ hch))

theorem stripSpansGo_span (g : Nat) (b rest : List Char) (hb : ltFree b) (hg : 1 ≤ g) :
    stripSpansGo g (openTag ++ (b ++ (closeTag ++ rest))) = stripSpansGo (g - 1) rest := by
  obtain ⟨f, rfl⟩ : ∃ f, g = f + 1 := ⟨g - 1, by omega⟩
  have hm : matchCI openTag (openTag ++ (b ++ (closeTag ++ rest)))
      = some (b ++ (closeTag ++ rest)) :=
    matchCI_self openTag _ (by decide)
  have hc := findClose_ltFree_append b rest hb
  rw [show openTag ++ (b ++ (closeTag ++ rest)) =
    '<' :: (['r', 'e', 'a', 's', 'o', 'n', 'i', 'n', 'g', '>'] ++ (b ++ (closeTag ++ rest)))
      from by simp [openTag]]
  simp only [stripSpansGo]
  simp only [List.cons_append, List.nil_append]
  have hm2 : matchCI openTag
      ('<' :: ('r' :: 'e' :: 'a' :: 's' :: 'o' :: 'n' :: 'i' :: 'n' :: 'g' :: '>'
        :: (b ++ (closeTag ++ rest)))) = some (b ++ (closeTag ++ rest)) := by
    simpa [openTag] using hm
  rw [hm2]
  simp [hc]

/-- C6: post-processing of a model answer removes every
`<reasoning>...</reasoning>` span (case-insensitive, across line breaks),
then collapses runs of 3 or more newlines to exactly 2, then trims
surrounding whitespace.  In particular the spec's example input maps to
"Hello world"; an input containing no reasoning tag at all is returned
unchanged except for the newline collapsing and trimming; and in general a
well-formed tagged span between `<`-free segments is excised entirely. -/
theorem reasoning_tag_stripping :
    (stripReasoningTags "<reasoning>internal notes</reasoning>Hello world" = "Hello world")
    ∧ (stripReasoningTags "<ReAsOning>internal\nnotes</REASONING>Hello world" = "Hello world")
    ∧ (stripReasoningTags " \nHello\n\n\n\nworld\n " = "Hello\n\nworld")
    ∧ (∀ s : String, hasTag s.data = false →
        stripReasoningTags s = String.mk (pyStripList (collapseNl s.data)))
    ∧ (∀ a b c : String, ltFree a.data → ltFree b.data → ltFree c.data →
        stripReasoningTags (a ++ "<reasoning>" ++ b ++ "</reasoning>" ++ c)
          = String.mk (pyStripList (collapseNl (a.data ++ c.data)))) := by
  refine ⟨by decide, by decide, by decide, ?_, ?_⟩
  · intro s h
    have h1 : stripSpans s.data = s.data := stripSpansGo_eq_self s.data h _
    have h2 : stripLone s.data = s.data := stripLoneGo_eq_self s.data h _
    unfold stripReasoningTags
    rw [h1, h2]
  · intro a b c ha hb hc
    have e1 : ("<reasoning>" : String).data = openTag := rfl
    have e2 : ("</reasoning>" : String).data = closeTag := rfl
    have hdata : (a ++ "<reasoning>" ++ b ++ "</reasoning>" ++ c).data
        = a.data ++ (openTag ++ (b.data ++ (closeTag ++ c.data))) := by
      simp [String.data_append, e1, e2, openTag, closeTag]
    have hsp : stripSpans (a.data ++ (openTag ++ (b.data ++ (closeTag ++ c.data))))
        = a.data ++ c.data := by
      unfold stripSpans
      rw [stripSpansGo_ltFree_append a.data (openTag ++ (b.data ++ (closeTag ++ c.data)))
        ((a.data ++ (openTag ++ (b.data ++ (closeTag ++ c.data)))).length) ha
        (by simp [List.length_append])]
      rw [show (a.data ++ (openTag ++ (b.data ++ (closeTag ++ c.data)))).length - a.data.length
          = (openTag ++ (b.data ++ (closeTag ++ c.data))).length from by
        simp [List.length_append]]
      rw [stripSpansGo_span (openTag ++ (b.data ++ (closeTag ++ c.data))).length
        b.data c.data hb (by simp [List.length_append, openTag])]
      rw [stripSpansGo_eq_self c.data (ltFree_hasTag c.data hc) _]
    have hac : ltFree (a.data ++ c.data) := by
      intro ch hch
      rcases List.mem_append.1 hch with h | h
      · exact ha ch h
      · exact hc ch h
    have h2 : stripLone (a.data ++ c.data) = a.data ++ c.data :=
      stripLoneGo_eq_self _ (ltFree_hasTag _ hac) _
    unfold stripReasoningTags
    rw [hdata, hsp, h2]

/-- C6 witness: the tag-free branch on "plain text" and the general-span
branch on concrete `<`-free segments. -/
theorem reasoning_tag_stripping_witness :
    (hasTag "plain text".data = false
      ∧ stripReasoningTags "plain text"
          = String.mk (pyStripList (collapseNl "plain text".data)))
    ∧ (ltFree "Intro ".data ∧ ltFree "secret".data ∧ ltFree " done".data
      ∧ stripReasoningTags ("Intro " ++ "<reasoning>" ++ "secret" ++ "</reasoning>" ++ " done")
          = String.mk (pyStripList (collapseNl ("Intro ".data ++ " done".data)))) :=
  ⟨⟨by decide, reasoning_tag_stripping.2.2.2.1 "plain text" (by decide)⟩,
   ⟨by decide, by decide, by decide,
    reasoning_tag_stripping.2.2.2.2 "Intro " "secret" " done"
      (by decide) (by decide) (by decide)⟩⟩

/-! Embedding of `ChatService` (src/main/service/ChatService.py) and the
`PedagogyMode` enumeration (src/main/dtos/PedagogyMode.py).

External effects are injected as arguments: the vector search outcome, the
agent call outcome for the main turn and for the title call (`Except`
models a raised exception), the generated session id for a `None`
session_id, the mode-prompt file contents, and the clock. -/

/-- Values of the `PedagogyMode` enumeration as defined in
src/main/dtos/PedagogyMode.py (SOCRATIC, EXPLANATORY, DEBUGGING,
ASSESSMENT, REVIEW). -/
def pedagogyModeValues : List String :=
  ["socratic", "explanatory", "debugging", "assessment", "review"]

/-- Embedding of `ChatService._migrate_old_mode`: the fixed migration dict
with default "explanatory" for unknown values. -/
def migrateOldMode (mode : String) : String :=
  if mode = "socratic" then "practice"
  else if mode = "assessment" then "practice"
  else if mode = "review" then "explanatory"
  else if mode = "explanatory" then "explanatory"
  else if mode = "debugging" then "debugging"
  else if mode = "practice" then "practice"
  else "explanatory"

/-- Python `str.lower()` restricted to ASCII (mode strings are ASCII). -/
def toLowerStr (s : String) : String := String.mk (s.data.map toLowerAscii)

/-- Result of `agent_client.chat`: a plain string, a dict (with optional
"content"/"answer" text and token/model metadata), or any other value whose
`str()` rendering is used. -/
inductive AgentResp where
  | text (s : String)
  | obj (content answer : Option String) (tokensInput tokensOutput : Option Int)
      (modelId : Option String)
  | other (s : String)
  deriving DecidableEq, Repr

/-- Python `a or b` on an optional string: `None` and `""` are falsy. -/
def pyOr (a : Option String) (b : String) : String :=
  match a with
  | some s => if s = "" then b else s
  | none => b

/-- Step 6 of `chat`: extract answer text and metadata from the agent
result (`result.get("content") or result.get("answer") or ""`). -/
def extractAnswer : AgentResp → String × Option Int × Option Int × Option String
  | .text s => (s, none, none, none)
  | .obj content ans tin tout mid => (pyOr content (pyOr ans ""), tin, tout, mid)
  | .other s => (s, none, none, none)

/-- Embedding of `ChatService._format_history`: header line, one line per
message with a Student/Tutor label and content truncated at 500 characters,
and a trailing blank line. -/
def formatHistory (history : List Message) : String :=
  if history = [] then ""
  else
    String.intercalate "\n"
      ((["Previous conversation in this session:"] ++
        history.map (fun msg =>
          (if msg.role = "user" then "Student: " else "Tutor: ") ++
          (if 500 < msg.content.length
            then String.mk (msg.content.data.take 500) ++ "..."
            else msg.content))) ++ [""])

/-- Embedding of `ChatService._build_messages` content parts: combined
system prompt (base preamble plus mode prompt when the mode is a valid
`PedagogyMode` member and its prompt file loads, bare preamble otherwise),
optional history block, optional context block, and the current question.
`prompts` injects the mode-prompt file contents (`none` models a missing
file raising inside `get_mode_prompt`). -/
def buildParts (preamble : String) (prompts : String → Option String)
    (query contextStr : String) (history : List Message) (mode : String) : List String :=
  let sysPart :=
    if toLowerStr mode ∈ pedagogyModeValues then
      match prompts (toLowerStr mode) with
      | some mp => preamble ++ "\n\n---\n\n" ++ mp
      | none => preamble
    else preamble
  [sysPart]
    ++ (if history = [] then [] else [formatHistory history])
    ++ (if contextStr = "" then [] else ["Relevant course materials:\n" ++ contextStr])
    ++ ["Current question:\n" ++ query]

/-- Flattened single-user-message content of `_build_messages`. -/
def buildContent (preamble : String) (prompts : String → Option String)
    (query contextStr : String) (history : List Message) (mode : String) : String :=
  String.intercalate "\n\n" (buildParts preamble prompts query contextStr history mode)

/-- Configuration held by a `ChatService` instance. -/
structure ChatConfig where
  maxContextChars : Nat
  maxHistoryMessages : Int
  systemPreamble : String
  deriving Repr

/-- Step 3 of `chat`: join the retrieved chunk texts with the separator and
hard-truncate the concatenated string to `max_context_chars` characters. -/
def chatContextStr (cfg : ChatConfig) (results : List (String × String)) : String :=
  let contextStr0 := String.intercalate "\n---\n" (results.map Prod.snd)
  if cfg.maxContextChars < contextStr0.length
    then String.mk (contextStr0.data.take cfg.maxContextChars)
    else contextStr0

/-- Step 1.5 of `chat`: resolve and persist the pedagogy mode.  Without an
explicit argument the session's stored mode is read and migrated (nothing
persisted); with one, it is validated against the enumeration
(case-insensitively), an invalid value falls back to "explanatory", and the
resulting value is stored on the session. -/
def chatStep15 (m : Memory) (sid : String) (modeArg : Option String) (now : Nat) :
    String × Memory :=
  match modeArg with
  | none => (migrateOldMode (getPedagogyMode m sid), m)
  | some arg =>
    let v := if toLowerStr arg ∈ pedagogyModeValues then toLowerStr arg else "explanatory"
    (v, setPedagogyMode m sid v now)

/-- Step 2 of `chat`: fetch history only for a continuing session when
`include_history` is set. -/
def chatStep2 (m1 : Memory) (sid : String) (isNew includeHistory : Bool)
    (maxHist : Int) (now : Nat) : List Message × Memory :=
  if includeHistory && !isNew then getHistory m1 sid (some maxHist) now
  else ([], m1)

/-- Quote characters removed from a generated title
(Python `title.strip(chr(34) ++ chr(39))`). -/
def quoteChars : List Char := ['"', '\x27']

/-- Python `str.strip(chars)` for an explicit character set. -/
def pyStripChars (cset : List Char) (l : List Char) : List Char :=
  ((l.dropWhile (fun c => cset.contains c)).reverse.dropWhile
    (fun c => cset.contains c)).reverse

/-- Title text extracted from the title agent call result, before tag and
quote cleanup (`result.strip()` / `result.get("content", "New Chat").strip()`
/ `"New Chat"`). -/
def rawTitle : AgentResp → String
  | .text s => String.mk (pyStripList s.data)
  | .obj content _ _ _ _ => String.mk (pyStripList (content.getD "New Chat").data)
  | .other _ => "New Chat"

/-- Title after reasoning-tag stripping, quote stripping and whitespace
stripping, before the 30-character cap. -/
def preTitle (r : AgentResp) : String :=
  String.mk (pyStripList (pyStripChars quoteChars (stripReasoningTags (rawTitle r)).data))

/-- Embedding of `ChatService._generate_session_title`: the body's
`try/except` turns any raised exception of the title agent call into the
placeholder "New Chat"; otherwise the cleaned title is capped at 30
characters (ellipsis-terminated when capped) and an empty result also
falls back to the placeholder. -/
def generateSessionTitle : Except Unit AgentResp → String
  | .error _ => "New Chat"
  | .ok r =>
    let t := preTitle r
    let t2 := if 30 < t.length then String.mk (t.data.take 27) ++ "..." else t
    if t2 = "" then "New Chat" else t2

/-- Modelling the call `self.memory.update_session_title(session_id, title)`
in `chat` step 7.5: `ConversationMemory` defines no `update_session_title`
method, so the attribute access raises `AttributeError` on every call and
nothing is stored. -/
def updateSessionTitle (_m : Memory) (_sid _title : String) : Except Unit Memory :=
  .error ()

/-- Step 7.5 of `chat`: generate a title for a new session and persist it,
with the whole step wrapped in `try/except` that only logs on failure.
Returns the memory afterwards and the title that was persisted, if any. -/
def titleStep (m : Memory) (sid : String) (titleOutcome : Except Unit AgentResp) :
    Memory × Option String :=
  let title := generateSessionTitle titleOutcome
  match updateSessionTitle m sid title with
  | .ok m2 => (m2, some title)
  | .error _ => (m, none)

/-- Response dict of a successful `ChatService.chat` call. -/
structure ChatResult where
  answer : String
  sessionId : String
  isNewSession : Bool
  historyLength : Nat
  pedagogyMode : String
  contextIds : List String
  tokensInput : Option Int
  tokensOutput : Option Int
  modelId : Option String
  deriving DecidableEq, Repr

/-- Step 1 of `chat`: a missing session id yields a fresh session, an
unknown supplied id is a first message for that session. -/
def chatIsNew (m : Memory) (sessionId : Option String) : Bool :=
  match sessionId with
  | none => true
  | some s => !(findSess m.sessions s).isSome

/-- Embedding of `ChatService.chat`.  `genId` is the uuid generated when no
session id is supplied; `searchOutcome`, `agentOutcome` and `titleOutcome`
inject the external effects.  A raised `VectorService`/agent exception is
re-raised as `ChatServiceError` with the corresponding message; the second
component is the memory as left behind by the call, also when it raises. -/
def chat (cfg : ChatConfig) (m : Memory) (query : String)
    (sessionId : Option String) (genId : String)
    (includeHistory : Bool) (pedagogyModeArg : Option String)
    (searchOutcome : Except String (List (String × String)))
    (agentOutcome : Except String AgentResp)
    (titleOutcome : Except Unit AgentResp)
    (prompts : String → Option String)
    (now : Nat) : Except String ChatResult × Memory :=
  let sid := sessionId.getD genId
  let isNew : Bool := chatIsNew m sessionId
  let step15 := chatStep15 m sid pedagogyModeArg now
  let mode := step15.1
  let m1 := step15.2
  let step2 := chatStep2 m1 sid isNew includeHistory cfg.maxHistoryMessages now
  let history := step2.1
  let m2 := step2.2
  match searchOutcome with
  | .error e => (.error ("Vector search failed: " ++ e), m2)
  | .ok results =>
    let contextIds := results.map Prod.fst
    let contextStr := chatContextStr cfg results
    let _prompt := buildContent cfg.systemPreamble prompts query contextStr history mode
    match agentOutcome with
    | .error e => (.error ("Agent call failed: " ++ e), m2)
    | .ok r =>
      let ex := extractAnswer r
      let answer := stripReasoningTags ex.1
      let m3 := addMessage m2 sid "user" query ex.2.1 none now
      let m4 := addMessage m3 sid "assistant" answer ex.2.2.1 (some contextIds) now
      let m5 := if isNew then (titleStep m4 sid titleOutcome).1 else m4
      (.ok { answer := answer, sessionId := sid, isNewSession := isNew,
             historyLength := history.length, pedagogyMode := mode,
             contextIds := contextIds, tokensInput := ex.2.1,
             tokensOutput := ex.2.2.1, modelId := ex.2.2.2 }, m5)

/-! Frame lemmas for the failing-model-call path of `chat` (claim C1). -/

theorem findSess_eraseKey (l : List (String × Session)) (k sid : String) :
    findSess (eraseKey l k) sid = if sid = k then none else findSess l sid := by
  induction l with
  | nil => simp [eraseKey, findSess]
  | cons p ps ih =>
    simp only [eraseKey]
    by_cases hp : p.1 = k
    · rw [if_pos hp, ih]
      by_cases hs : sid = k
      · simp [hs]
      · have hps : ¬ p.1 = sid := by
          rw [hp]; exact fun hh => hs hh.symm
        simp [hs, findSess, hps]
    · rw [if_neg hp]
      by_cases hq : p.1 = sid
      · have hsk : ¬ sid = k := fun hh => hp (hq.trans hh)
        simp [findSess, hq, hsk]
      · simp [findSess, hq, ih]

theorem findSess_single_ne (sid sid' : String) (s : Session) (hne : sid' ≠ sid) :
    findSess [(sid, s)] sid' = none := by
  have : sid ≠ sid' := fun hh => hne hh.symm
  simp [findSess, this]

theorem findSess_append_single_ne (l : List (String × Session)) (sid sid' : String)
    (s : Session) (hne : sid' ≠ sid) :
    findSess (l ++ [(sid, s)]) sid' = findSess l sid' := by
  rw [findSess_append]
  cases hf : findSess l sid'
  · simp [findSess_single_ne sid sid' s hne]
  · rfl

theorem findSess_createSession_ne (m : Memory) (sid : String) (now : Nat) (sid' : String)
    (hne : sid' ≠ sid) (s' : Session)
    (h : findSess (createSession m sid now).sessions sid' = some s') :
    findSess m.sessions sid' = some s' := by
  simp only [createSession] at h
  rw [findSess_append_single_ne _ _ _ _ hne] at h
  revert h
  by_cases hcap : m.maxSessions ≤ m.sessions.length
  · rw [if_pos hcap]
    cases hmin : minByLast m.sessions with
    | none => exact fun h => h
    | some p =>
      intro h
      rw [findSess_eraseKey] at h
      by_cases hs : sid' = p.1
      · rw [if_pos hs] at h; cases h
      · rwa [if_neg hs] at h
  · rw [if_neg hcap]
    exact fun h => h

theorem findSess_createSession_self (m : Memory) (sid : String) (now : Nat)
    (h : findSess m.sessions sid = none) :
    findSess (createSession m sid now).sessions sid = some (freshSession now) := by
  simp only [createSession]
  rw [findSess_append]
  have hss : findSess (if m.maxSessions ≤ m.sessions.length then
      match minByLast m.sessions with
      | some p => eraseKey m.sessions p.1
      | none => m.sessions
    else m.sessions) sid = none := by
    split
    · split
      · rw [findSess_eraseKey]
        split
        · rfl
        · exact h
      · exact h
    · exact h
  rw [hss]
  simp [findSess]

/-- Survivor preservation: every session found in the new state was either
absent from the old state or carried the same messages and token total
there. -/
def SurvPres (mOld mNew : Memory) : Prop :=
  ∀ sid' s', findSess mNew.sessions sid' = some s' →
    findSess mOld.sessions sid' = none ∨
    ∃ s, findSess mOld.sessions sid' = some s
      ∧ s'.messages = s.messages ∧ s'.totalTokens = s.totalTokens

/-- Backward preservation: every session found in the new state already
existed with the same messages and token total (no creation happened). -/
def BackPres (mOld mNew : Memory) : Prop :=
  ∀ sid' s', findSess mNew.sessions sid' = some s' →
    ∃ s, findSess mOld.sessions sid' = some s
      ∧ s'.messages = s.messages ∧ s'.totalTokens = s.totalTokens

theorem survPres_refl (m : Memory) : SurvPres m m :=
  fun _ s' h => Or.inr ⟨s', h, rfl, rfl⟩

theorem backPres_refl (m : Memory) : BackPres m m :=
  fun _ s' h => ⟨s', h, rfl, rfl⟩

theorem survPres_comp_back (m m1 m2 : Memory) (h1 : SurvPres m m1) (h2 : BackPres m1 m2) :
    SurvPres m m2 := by
  intro sid' s' h
  obtain ⟨s'', hmid, he1, he2⟩ := h2 sid' s' h
  rcases h1 sid' s'' hmid with hnone | ⟨s, hold, f1, f2⟩
  · exact Or.inl hnone
  · exact Or.inr ⟨s, hold, he1.trans f1, he2.trans f2⟩

theorem getHistory_snd_none (m : Memory) (sid : String) (k : Option Int) (now : Nat)
    (h : findSess m.sessions sid = none) : (getHistory m sid k now).2 = m := by
  simp [getHistory, h]

theorem getHistory_snd_sessions_some (m : Memory) (sid : String) (k : Option Int)
    (now : Nat) (s : Session) (h : findSess m.sessions sid = some s) :
    ((getHistory m sid k now).2).sessions
      = updateSess (fun t => { t with lastAccessed := now }) m.sessions sid := by
  simp only [getHistory, h]
  rcases k with _ | k
  · rfl
  · dsimp only
    split <;> rfl

theorem setPedagogyMode_sessions_some (m : Memory) (sid mode : String) (now : Nat)
    (h : (findSess m.sessions sid).isSome) :
    (setPedagogyMode m sid mode now).sessions
      = updateSess (fun s => { s with pedagogyMode := mode }) m.sessions sid := by
  simp [setPedagogyMode, h]

theorem setPedagogyMode_sessions_none (m : Memory) (sid mode : String) (now : Nat)
    (h : findSess m.sessions sid = none) :
    (setPedagogyMode m sid mode now).sessions
      = updateSess (fun s => { s with pedagogyMode := mode })
          (createSession m sid now).sessions sid := by
  simp [setPedagogyMode, h]

theorem backPres_getHistory (m : Memory) (sid : String) (k : Option Int) (now : Nat) :
    BackPres m (getHistory m sid k now).2 := by
  intro sid' s' h
  cases hfind : findSess m.sessions sid with
  | none =>
    rw [getHistory_snd_none m sid k now hfind] at h
    exact ⟨s', h, rfl, rfl⟩
  | some s =>
    rw [getHistory_snd_sessions_some m sid k now s hfind] at h
    by_cases hc : sid' = sid
    · subst hc
      rw [findSess_updateSess_self] at h
      cases hf2 : findSess m.sessions sid' with
      | none => rw [hf2] at h; cases h
      | some s0 =>
        rw [hf2] at h
        have hfs : ({ s0 with lastAccessed := now } : Session) = s' := by
          simpa using h
        exact ⟨s0, rfl, by rw [← hfs], by rw [← hfs]⟩
    · rw [findSess_updateSess_ne _ _ _ _ hc] at h
      exact ⟨s', h, rfl, rfl⟩

theorem survPres_setPedagogyMode (m : Memory) (sid mode : String) (now : Nat) :
    SurvPres m (setPedagogyMode m sid mode now) := by
  intro sid' s' h
  by_cases hex : (findSess m.sessions sid).isSome
  · rw [setPedagogyMode_sessions_some m sid mode now hex] at h
    by_cases hc : sid' = sid
    · subst hc
      rw [findSess_updateSess_self] at h
      cases hf2 : findSess m.sessions sid' with
      | none => rw [hf2] at h; cases h
      | some s0 =>
        rw [hf2] at h
        have hfs : ({ s0 with pedagogyMode := mode } : Session) = s' := by
          simpa using h
        exact Or.inr ⟨s0, rfl, by rw [← hfs], by rw [← hfs]⟩
    · rw [findSess_updateSess_ne _ _ _ _ hc] at h
      exact Or.inr ⟨s', h, rfl, rfl⟩
  · have hnone : findSess m.sessions sid = none := by
      cases hf : findSess m.sessions sid
      · rfl
      · rw [hf] at hex; simp at hex
    rw [setPedagogyMode_sessions_none m sid mode now hnone] at h
    by_cases hc : sid' = sid
    · subst hc
      exact Or.inl hnone
    · rw [findSess_updateSess_ne _ _ _ _ hc] at h
      exact Or.inr ⟨s', findSess_createSession_ne m sid now sid' hc s' h, rfl, rfl⟩

theorem backPres_chatStep2 (m1 : Memory) (sid : String) (isNew ihh : Bool)
    (mh : Int) (now : Nat) : BackPres m1 (chatStep2 m1 sid isNew ihh mh now).2 := by
  unfold chatStep2
  split
  · exact backPres_getHistory _ _ _ _
  · exact backPres_refl _

theorem chat_agent_error (cfg : ChatConfig) (m : Memory) (query : String)
    (sessionId : Option String) (genId : String) (ih : Bool) (modeArg : Option String)
    (results : List (String × String)) (e : String) (t : Except Unit AgentResp)
    (prompts : String → Option String) (now : Nat) :
    chat cfg m query sessionId genId ih modeArg (.ok results) (.error e) t prompts now
      = (.error ("Agent call failed: " ++ e),
         (chatStep2 (chatStep15 m (sessionId.getD genId) modeArg now).2
           (sessionId.getD genId) (chatIsNew m sessionId)
           ih cfg.maxHistoryMessages now).2) := by
  cases sessionId <;> rfl

/-- Session with one message, last accessed at instant 5. -/
def c1Session : Session :=
  { messages := [demoMsg 1], createdAt := 0, lastAccessed := 5
    totalTokens := 0, pedagogyMode := "explanatory" }

/-- Same session after a read at instant 7. -/
def c1SessionTouched : Session :=
  { messages := [demoMsg 1], createdAt := 0, lastAccessed := 7
    totalTokens := 0, pedagogyMode := "explanatory" }

/-- Memory holding just `c1Session` under the id "s". -/
def c1Mem : Memory := { sessions := [("s", c1Session)], maxSessions := 1000 }

/-- Default-like `ChatService` configuration used in the C1 scenario. -/
def c1Cfg : ChatConfig :=
  { maxContextChars := 8000, maxHistoryMessages := 10, systemPreamble := "sys" }

/-- C1 counterexample: with an existing session "s" (last accessed at 5), a
history-including chat call at instant 7 whose model invocation raises
leaves the memory different from before the call — the history read already
bumped `last_accessed` — so "no other persisted session state differs" is
false as stated. -/
theorem chat_agent_failure_state_differs :
    (chat c1Cfg c1Mem "q" (some "s") "gen" true none (.ok []) (.error "boom") (.error ())
        (fun _ => none) 7).1
      = .error "Agent call failed: boom"
    ∧ (chat c1Cfg c1Mem "q" (some "s") "gen" true none (.ok []) (.error "boom") (.error ())
        (fun _ => none) 7).2
      ≠ c1Mem := by
  constructor
  · rfl
  · decide

/-- C1 amended: when the model invocation raises, `chat` surfaces the
failure as a `ChatServiceError` ("Agent call failed: ...") and appends no
message to any session — every session present both before and after the
call keeps exactly its message list and token total (in particular no
partial user-only entry); however, the pre-call steps may already have
persisted state: the history read bumps the session's `last_accessed`, and
an explicitly supplied pedagogy mode is stored (possibly creating, and at
capacity evicting, a session). -/
theorem chat_agent_failure_no_partial_write (cfg : ChatConfig) (m : Memory) (query : String)
    (sessionId : Option String) (genId : String) (ih : Bool) (modeArg : Option String)
    (results : List (String × String)) (e : String) (t : Except Unit AgentResp)
    (prompts : String → Option String) (now : Nat) :
    (chat cfg m query sessionId genId ih modeArg (.ok results) (.error e) t prompts now).1
      = .error ("Agent call failed: " ++ e)
    ∧ (∀ sid' s s',
        findSess m.sessions sid' = some s →
        findSess ((chat cfg m query sessionId genId ih modeArg (.ok results) (.error e)
            t prompts now).2).sessions sid' = some s' →
        s'.messages = s.messages ∧ s'.totalTokens = s.totalTokens) := by
  have hchat := chat_agent_error cfg m query sessionId genId ih modeArg results e t prompts now
  constructor
  · rw [hchat]
  · intro sid' s s' hold hnew
    have hnew2 : findSess ((chatStep2 (chatStep15 m (sessionId.getD genId) modeArg now).2
        (sessionId.getD genId) (chatIsNew m sessionId)
        ih cfg.maxHistoryMessages now).2).sessions sid' = some s' := by
      rw [hchat] at hnew
      exact hnew
    have h15 : SurvPres m (chatStep15 m (sessionId.getD genId) modeArg now).2 := by
      cases modeArg with
      | none => exact survPres_refl m
      | some arg =>
        exact survPres_setPedagogyMode m (sessionId.getD genId)
          (if toLowerStr arg ∈ pedagogyModeValues then toLowerStr arg else "explanatory") now
    have hsurv := survPres_comp_back m (chatStep15 m (sessionId.getD genId) modeArg now).2 _
      h15 (backPres_chatStep2 (chatStep15 m (sessionId.getD genId) modeArg now).2
        (sessionId.getD genId) (chatIsNew m sessionId)
        ih cfg.maxHistoryMessages now)
    rcases hsurv sid' s' hnew2 with hnone | ⟨s0, hold0, f1, f2⟩
    · rw [hold] at hnone; cases hnone
    · rw [hold] at hold0
      have hs0 : s0 = s := (Option.some.inj hold0).symm
      subst hs0
      exact ⟨f1, f2⟩

/-- C1 witness: the amended theorem evaluated on the counterexample's
concrete state, where the surviving session keeps its single message and
token total. -/
theorem chat_agent_failure_no_partial_write_witness :
    (findSess c1Mem.sessions "s" = some c1Session)
    ∧ (findSess ((chat c1Cfg c1Mem "q" (some "s") "gen" true none (.ok []) (.error "boom")
        (.error ()) (fun _ => none) 7).2).sessions "s" = some c1SessionTouched)
    ∧ (c1SessionTouched.messages = c1Session.messages
      ∧ c1SessionTouched.totalTokens = c1Session.totalTokens) :=
  ⟨by decide, by decide,
   (chat_agent_failure_no_partial_write c1Cfg c1Mem
     "q" (some "s") "gen" true none [] "boom" (.error ()) (fun _ => none) 7).2
     "s" c1Session c1SessionTouched (by decide) (by decide)⟩

/-- C7: the retrieved chunk texts are joined into one context string and
the hard character truncation applies to that concatenated string: when it
holds exactly `max_context_chars + 1` characters the context used is
exactly its first `max_context_chars` characters, a string within budget
passes unchanged, and the (nonempty) truncated string is what appears in
the assembled prompt's "Relevant course materials" block. -/
theorem context_truncation (cfg : ChatConfig) (results : List (String × String)) :
    ((String.intercalate "\n---\n" (results.map Prod.snd)).length = cfg.maxContextChars + 1 →
      chatContextStr cfg results
        = String.mk ((String.intercalate "\n---\n" (results.map Prod.snd)).data.take
            cfg.maxContextChars)
      ∧ (chatContextStr cfg results).length = cfg.maxContextChars)
    ∧ ((String.intercalate "\n---\n" (results.map Prod.snd)).length ≤ cfg.maxContextChars →
      chatContextStr cfg results = String.intercalate "\n---\n" (results.map Prod.snd))
    ∧ (∀ (preamble : String) (prompts : String → Option String) (query : String)
        (history : List Message) (mode : String),
        chatContextStr cfg results ≠ "" →
        "Relevant course materials:\n" ++ chatContextStr cfg results
          ∈ buildParts preamble prompts query (chatContextStr cfg results) history mode) := by
  refine ⟨?_, ?_, ?_⟩
  · intro h
    have hlt : cfg.maxContextChars
        < (String.intercalate "\n---\n" (results.map Prod.snd)).length := by omega
    constructor
    · simp [chatContextStr, hlt]
    · simp only [chatContextStr, if_pos hlt]
      have hmk : ∀ l : List Char, (String.mk l).length = l.length := fun l => rfl
      rw [hmk, List.length_take]
      have hdata : (String.intercalate "\n---\n" (results.map Prod.snd)).data.length
          = (String.intercalate "\n---\n" (results.map Prod.snd)).length := rfl
      omega
  · intro h
    have hnot : ¬ cfg.maxContextChars
        < (String.intercalate "\n---\n" (results.map Prod.snd)).length := by omega
    simp [chatContextStr, hnot]
  · intro preamble prompts query history mode hne
    simp [buildParts, hne]

/-- Five-character context budget used by the C7 witness. -/
def c7Cfg : ChatConfig :=
  { maxContextChars := 5, maxHistoryMessages := 10, systemPreamble := "s" }

/-- C7 witness: a single six-character chunk against a five-character
budget loses its final character inside the assembled parts. -/
theorem context_truncation_witness :
    (((String.intercalate "\n---\n" ([(("a" : String), ("abcdef" : String))].map Prod.snd)).length
        = 5 + 1)
      ∧ chatContextStr c7Cfg [("a", "abcdef")]
        = String.mk ((String.intercalate "\n---\n"
            ([(("a" : String), ("abcdef" : String))].map Prod.snd)).data.take 5))
    ∧ (chatContextStr c7Cfg [("a", "abcdef")] ≠ ""
      ∧ "Relevant course materials:\n" ++ chatContextStr c7Cfg [("a", "abcdef")]
        ∈ buildParts "sys" (fun _ => none) "q"
            (chatContextStr c7Cfg [("a", "abcdef")]) [] "explanatory") :=
  ⟨⟨by decide,
    ((context_truncation c7Cfg [("a", "abcdef")]).1 (by decide)).1⟩,
   ⟨by decide,
    (context_truncation c7Cfg [("a", "abcdef")]).2.2 "sys" (fun _ => none) "q" []
      "explanatory" (by decide)⟩⟩

/-- C9 counterexample: a successful title generation ("Nice Title") whose
persistence step raises — as it always does, `ConversationMemory` defines
no `update_session_title` — ends with no title stored at all, not with the
generic placeholder, refuting "caught and replaced by the generic
placeholder title" for persistence failures. -/
theorem title_persistence_no_placeholder :
    generateSessionTitle (.ok (.text "Nice Title")) = "Nice Title"
    ∧ (titleStep { sessions := [], maxSessions := 10 } "s" (.ok (.text "Nice Title"))).2 = none
    ∧ (titleStep { sessions := [], maxSessions := 10 } "s"
        (.ok (.text "Nice Title"))).2 ≠ some "New Chat" := by
  refine ⟨by decide, rfl, by decide⟩

/-- C9 amended: the title step is best-effort — the generated title is at
most 30 characters, capped with an ellipsis terminator when the cleaned
title exceeds 30 characters, and quote characters are stripped; an
exception inside title generation is caught there and replaced by the
generic placeholder "New Chat"; an exception in title persistence (which
always occurs, since `ConversationMemory` defines no
`update_session_title`) is caught with the title simply not persisted; and
no outcome of the title step ever changes the memory or the result that
`chat` returns. -/
theorem session_title_best_effort :
    (∀ o : Except Unit AgentResp, (generateSessionTitle o).length ≤ 30)
    ∧ (∀ r : AgentResp, 30 < (preTitle r).length →
        generateSessionTitle (.ok r) = String.mk ((preTitle r).data.take 27) ++ "...")
    ∧ (∀ e : Unit, generateSessionTitle (.error e) = "New Chat")
    ∧ (∀ (m : Memory) (sid : String) (o : Except Unit AgentResp), titleStep m sid o = (m, none))
    ∧ (∀ (cfg : ChatConfig) (m : Memory) (query : String) (sessionId : Option String)
        (genId : String) (ihh : Bool) (modeArg : Option String)
        (so : Except String (List (String × String))) (ao : Except String AgentResp)
        (t1 t2 : Except Unit AgentResp) (prompts : String → Option String) (now : Nat),
        chat cfg m query sessionId genId ihh modeArg so ao t1 prompts now
          = chat cfg m query sessionId genId ihh modeArg so ao t2 prompts now)
    ∧ (generateSessionTitle (.ok (.text "  \"Recursion Basics\"  ")) = "Recursion Basics")
    ∧ (generateSessionTitle (.ok (.text "This explanation title is definitely much too long"))
        = String.mk ("This explanation title is definitely much too long".data.take 27)
            ++ "...") := by
  have htitle : ∀ (m : Memory) (sid : String) (o : Except Unit AgentResp),
      titleStep m sid o = (m, none) := by
    intro m sid o
    rfl
  refine ⟨?_, ?_, ?_, htitle, ?_, by decide, by decide⟩
  · intro o
    cases o with
    | error e =>
      cases e
      decide
    | ok r =>
      simp only [generateSessionTitle]
      by_cases h1 : 30 < (preTitle r).length
      · rw [if_pos h1]
        by_cases h2 : (String.mk ((preTitle r).data.take 27) ++ "...") = ""
        · rw [if_pos h2]
          decide
        · rw [if_neg h2]
          have hlen : (String.mk ((preTitle r).data.take 27) ++ "...").length
              = ((preTitle r).data.take 27).length + 3 := by
            rw [String.length_append]
            rfl
          rw [hlen]
          have := List.length_take_le 27 (preTitle r).data
          omega
      · rw [if_neg h1]
        by_cases h2 : preTitle r = ""
        · rw [if_pos h2]
          decide
        · rw [if_neg h2]
          omega
  · intro r h
    simp only [generateSessionTitle, if_pos h]
    have hne : (String.mk ((preTitle r).data.take 27) ++ "...") ≠ "" := by
      intro hh
      have hl := congrArg String.length hh
      rw [String.length_append] at hl
      have h3 : ("..." : String).length = 3 := rfl
      have h0 : ("" : String).length = 0 := rfl
      rw [h3, h0] at hl
      omega
    rw [if_neg hne]
  · intro e
    rfl
  · intro cfg m query sessionId genId ihh modeArg so ao t1 t2 prompts now
    cases so with
    | error e => rfl
    | ok results =>
      cases ao with
      | error e => rfl
      | ok r => rfl

/-- C9 witness: the cap theorem applied to a concrete overlong title. -/
theorem session_title_best_effort_witness :
    (30 < (preTitle (.text "This explanation title is definitely much too long")).length)
    ∧ generateSessionTitle (.ok (.text "This explanation title is definitely much too long"))
        = String.mk ((preTitle
            (.text "This explanation title is definitely much too long")).data.take 27)
          ++ "..." :=
  ⟨by decide,
   session_title_best_effort.2.1 (.text "This explanation title is definitely much too long")
     (by decide)⟩

/-- Session storing the retired mode "socratic". -/
def c3Session : Session :=
  { messages := [], createdAt := 0, lastAccessed := 0
    totalTokens := 0, pedagogyMode := "socratic" }

/-- Memory whose only session stores the retired mode "socratic". -/
def c3Mem : Memory := { sessions := [("s", c3Session)], maxSessions := 10 }

/-- C3: the stored-mode resolution of `chat` without an explicit mode
argument follows the fixed migration table (socratic and assessment map to
practice, review to explanatory, current names pass through, anything else
defaults to explanatory) and, being a pure function of the stored value, is
the same on every call; but the migrated value "practice" is NOT a member
of the current `PedagogyMode` enumeration, whose value set is still the
retired five-mode one — the code contradicts its own 3-mode docstrings. -/
theorem mode_migration_bug :
    migrateOldMode "socratic" = "practice"
    ∧ migrateOldMode "assessment" = "practice"
    ∧ migrateOldMode "review" = "explanatory"
    ∧ migrateOldMode "explanatory" = "explanatory"
    ∧ migrateOldMode "debugging" = "debugging"
    ∧ migrateOldMode "practice" = "practice"
    ∧ migrateOldMode "weird" = "explanatory"
    ∧ "practice" ∉ pedagogyModeValues
    ∧ (∀ (m : Memory) (sid : String) (now : Nat), getPedagogyMode m sid = "socratic" →
        (chatStep15 m sid none now).1 = "practice"
        ∧ (chatStep15 m sid none now).1 ∉ pedagogyModeValues) := by
  refine ⟨by decide, by decide, by decide, by decide, by decide, by decide, by decide,
    by decide, ?_⟩
  intro m sid now h
  constructor
  · simp [chatStep15, h, migrateOldMode]
  · simp [chatStep15, h, migrateOldMode, pedagogyModeValues]

/-- C3 witness: a session stored with mode "socratic" resolves to
"practice", which the enumeration does not contain. -/
theorem mode_migration_bug_witness :
    getPedagogyMode c3Mem "s" = "socratic"
    ∧ ((chatStep15 c3Mem "s" none 3).1 = "practice"
      ∧ (chatStep15 c3Mem "s" none 3).1 ∉ pedagogyModeValues) :=
  ⟨by decide, mode_migration_bug.2.2.2.2.2.2.2.2 c3Mem "s" 3 (by decide)⟩

end VectorStore
